import Mathlib

/-!
Verification development for the Legion telemetry frontend core:
the metric streaming synchronizer (`MetricStreamer`) and the timeline
span renderer (`TimelineTrackCanvasBaseDrawer`).

Times and pixel values are modelled as rationals (`ℚ`); the JavaScript
code uses IEEE doubles but every operation relevant here (comparison,
addition, subtraction, multiplication, `Math.floor`) is exact on the
inputs considered.  `Math.min` / `Math.max` over a possibly-empty spread
are modelled on an extended-rational type with `+∞` / `-∞` values, which
is exactly the JavaScript behaviour on NaN-free inputs.
-/

/-- A JavaScript number extended with the two infinities, as needed for
`Math.min(...xs)` / `Math.max(...xs)` over possibly empty argument lists.
NaN never arises in the modelled code paths. -/
inductive XR where
  | negInf : XR
  | fin (q : ℚ) : XR
  | posInf : XR
deriving DecidableEq, Repr

/-- Strict order on extended rationals (used to state "min > max" sentinels). -/
def XR.ltB : XR → XR → Bool
  | .negInf, .negInf => false
  | .negInf, _ => true
  | .fin _, .negInf => false
  | .fin p, .fin q => p < q
  | .fin _, .posInf => true
  | .posInf, _ => false

/-- Binary `Math.min` on NaN-free values. -/
def XR.minv : XR → XR → XR
  | .negInf, _ => .negInf
  | _, .negInf => .negInf
  | .posInf, b => b
  | a, .posInf => a
  | .fin p, .fin q => .fin (min p q)

/-- Binary `Math.max` on NaN-free values. -/
def XR.maxv : XR → XR → XR
  | .posInf, _ => .posInf
  | _, .posInf => .posInf
  | .negInf, b => b
  | a, .negInf => a
  | .fin p, .fin q => .fin (max p q)

/-- `Math.min(...xs)`: the fold starts from `+Infinity`, so the empty
spread yields `+Infinity`. -/
def mathMin (xs : List XR) : XR := xs.foldl XR.minv .posInf

/-- `Math.max(...xs)`: the fold starts from `-Infinity`, so the empty
spread yields `-Infinity`. -/
def mathMax (xs : List XR) : XR := xs.foldl XR.maxv .negInf

/-- One metric descriptor of a block manifest (`fetch_block_metric_manifest`
returns `{ metrics: [...] }`); carries the metric's name and its global
time range. -/
structure MetricDesc where
  name : String
  minMs : XR
  maxMs : XR
deriving DecidableEq

/-- One block manifest, as consumed by `initializeAsync`. -/
structure BlockManifest where
  blockId : String
  metrics : List MetricDesc
deriving DecidableEq

/-- Modelled from the spec: `MetricState` (its implementation is not part of
the excerpt; only its construction from a `MetricDesc` and its `min`/`max`
accessors are relevant here).  The descriptor's global min/max time become
the state's `min`/`max`, and `registerBlock` records the manifest's block. -/
structure MetricState where
  name : String
  min : XR
  max : XR
  blocks : List String
deriving DecidableEq

/-- `registerBlock(blockManifest)` on a `MetricState`: record the block id. -/
def MetricState.registerBlock (s : MetricState) (m : BlockManifest) : MetricState :=
  { s with blocks := s.blocks ++ [m.blockId] }

/-- The `metricStates` map built by `initializeAsync`, in insertion order
(a JavaScript `Map` preserves insertion order). -/
def buildMetricStates (manifests : List BlockManifest) : List MetricState :=
  manifests.foldl
    (fun states m =>
      m.metrics.foldl
        (fun states desc =>
          let states :=
            if (states.find? (fun s => s.name = desc.name)).isNone then
              states ++ [{ name := desc.name, min := desc.minMs, max := desc.maxMs, blocks := [] }]
            else states
          states.map (fun s =>
            if s.name = desc.name then s.registerBlock m else s))
        states)
    []

/-- The tail of `MetricStreamer.initializeAsync`: register the metric states
built from the block manifests into the (initially empty) store, then
`currentMinMs = Math.min(...store.map(s => s.min))` and
`currentMaxMs = Math.max(...store.map(s => s.max))`. -/
def initializeAsyncRange (manifests : List BlockManifest) : XR × XR :=
  let store := buildMetricStates manifests
  (mathMin (store.map (·.min)), mathMax (store.map (·.max)))

/-- A block handle as produced by `requestMissingBlocks` and consumed by
`fetch_block_metric` (`block.streamId`, `block.blockId`). -/
structure Blk where
  streamId : String
  blockId : String
deriving DecidableEq, Repr

/-- The view of one metric that `fetchSelectedMetrics` uses:
`canBeDisplayed()` and `requestMissingBlocks(min, max, lod)` (both
implemented by `MetricState`, outside the excerpt; here they are the
metric's interface). -/
structure MetricView where
  name : String
  canBeDisplayed : Bool
  requestMissingBlocks : ℚ → ℚ → ℕ → List Blk

/-- `MetricStreamer.fetchSelectedMetrics(lod)`, up to task spawning: filter
the store by `canBeDisplayed`, collect the missing blocks per metric, and —
unless the flattened list is empty, in which case it returns — spawn one
asynchronous fetch task per `(metric, block)` pair.  The returned list is
the list of spawned tasks in spawn order; each spawned task then runs
against the concurrency gate (see `GateStep`). -/
def fetchSelectedMetrics (store : List MetricView) (currentMinMs currentMaxMs : ℚ)
    (lod : ℕ) : List (String × Blk) :=
  let metrics := store.filter (fun m => m.canBeDisplayed)
  let missingBlocks := metrics.map (fun m =>
    (m.name, m.requestMissingBlocks currentMinMs currentMaxMs lod))
  if (missingBlocks.flatMap (fun b => b.2)).length = 0 then
    []
  else
    missingBlocks.flatMap (fun metric => metric.2.map (fun block => (metric.1, block)))

/-- `new Semaphore(8)` in the `MetricStreamer` constructor. -/
def gateCapacity : ℕ := 8

/-- Lifecycle phase of one spawned block-fetch task: before
`semaphore.acquire()` resolves; holding a gate unit during
`fetch_block_metric`; finished (released in `finally`). -/
inductive TaskPhase where
  | waiting : TaskPhase
  | holding : TaskPhase
  | done : TaskPhase
deriving DecidableEq, Repr

/-- State of the concurrency gate and of the spawned fetch tasks.
`registered` records the `metricStore.registerBlock(blockData, blockId,
metricName)` calls performed so far (the fetched coverage). -/
structure GateState where
  permits : ℕ
  tasks : List TaskPhase
  registered : List (String × String × String)
deriving DecidableEq, Repr

/-- Initial state: the semaphore holds its full capacity of permits and
every spawned task is awaiting `acquire()`. -/
def initGateState (n : ℕ) : GateState :=
  { permits := gateCapacity, tasks := List.replicate n .waiting, registered := [] }

/-- Number of tasks currently holding a gate unit. -/
def holdersCount (s : GateState) : ℕ :=
  s.tasks.countP (fun t => t == .holding)

/-- One interleaving step of the spawned fetch tasks of
`fetchSelectedMetrics`, indexed by the spawn list `specs`:
* `acquire`: `await this.semaphore.acquire()` resolves for a waiting task —
  only possible while a permit is available;
* `fetchOk`: `fetch_block_metric` resolves with data; the task registers the
  block into the store and the `finally` releases the unit;
* `fetchNone`: the fetch resolves with no data (`blockData` undefined, e.g.
  a null client); nothing is registered, the `finally` releases the unit;
* `fetchErr`: the fetch rejects; the `try` body is abandoned before
  `registerBlock`, and the `finally` releases the unit. -/
inductive GateStep (specs : List (String × Blk)) : GateState → GateState → Prop
  | acquire (s : GateState) (i : ℕ)
      (hw : s.tasks.get? i = some .waiting) (hp : 0 < s.permits) :
      GateStep specs s
        { permits := s.permits - 1, tasks := s.tasks.set i .holding,
          registered := s.registered }
  | fetchOk (s : GateState) (i : ℕ) (data : String)
      (hh : s.tasks.get? i = some .holding) :
      GateStep specs s
        { permits := s.permits + 1, tasks := s.tasks.set i .done,
          registered := s.registered ++
            [((specs.getD i ("", ⟨"", ""⟩)).1,
              (specs.getD i ("", ⟨"", ""⟩)).2.blockId, data)] }
  | fetchNone (s : GateState) (i : ℕ)
      (hh : s.tasks.get? i = some .holding) :
      GateStep specs s
        { permits := s.permits + 1, tasks := s.tasks.set i .done,
          registered := s.registered }
  | fetchErr (s : GateState) (i : ℕ)
      (hh : s.tasks.get? i = some .holding) :
      GateStep specs s
        { permits := s.permits + 1, tasks := s.tasks.set i .done,
          registered := s.registered }

/-- Reachability under the interleaving semantics. -/
def GateReachable (specs : List (String × Blk)) : GateState → GateState → Prop :=
  Relation.ReflTransGen (GateStep specs)

/-- The state reached from `s` when the fetch of task `i` ends in error:
the gate unit is released, the task is finished, nothing is registered. -/
def errStepState (s : GateState) (i : ℕ) : GateState :=
  { permits := s.permits + 1, tasks := s.tasks.set i .done, registered := s.registered }

/-- One span of a `SpanTrack` (`@lgn/proto-telemetry` `Span`). -/
structure Span where
  beginMs : ℚ
  endMs : ℚ
  alpha : ℚ
  scopeHash : ℕ
deriving DecidableEq, Repr

/-- Placeholder element for out-of-range `track.spans[i]` accesses; every
access in the modelled code is in range. -/
def dfltSpan : Span := { beginMs := 0, endMs := 0, alpha := 0, scopeHash := 0 }

/-- `track.spans[i]`. -/
def sp (track : List Span) (i : ℕ) : Span := track.getD i dfltSpan

/-- The npm `binary-search` routine specialised to span comparators.  The
JavaScript loop state is `(low, high)`; here `hi1 = high + 1` so that both
bounds are naturals, and the loop is driven by explicit fuel (any fuel
`≥ hi1 - low` gives the loop's result, see `binarySearchGo_spec`).  On
`cmp = 0` the probe index is returned; otherwise the final `~low`
(`= -(low+1)`) is returned. -/
def binarySearchGo (track : List Span) (needle : ℚ) (cmp : Span → ℚ → Int) :
    ℕ → ℕ → ℕ → Int
  | 0, low, _ => -((low : Int) + 1)
  | fuel + 1, low, hi1 =>
    if low < hi1 then
      let mid := low + (hi1 - 1 - low) / 2
      let c := cmp (sp track mid) needle
      if c < 0 then binarySearchGo track needle cmp fuel (mid + 1) hi1
      else if c > 0 then binarySearchGo track needle cmp fuel low mid
      else (mid : Int)
    else -((low : Int) + 1)

/-- `binarySearch(track.spans, needle, comparator)` with
`low = 0, high = length - 1`. -/
def binarySearch (track : List Span) (needle : ℚ) (cmp : Span → ℚ → Int) : Int :=
  binarySearchGo track needle cmp track.length 0 track.length

/-- `if (r < 0) r = ~r` — recover the insertion point from a not-found
result (`~r = -(r+1)`); a found result is already a valid index. -/
def normIndex (r : Int) : ℕ :=
  if r < 0 then (-(r + 1)).toNat else r.toNat

/-- The `firstSpan` comparator of `drawSpanTrack`. -/
def firstSpanCmp (span : Span) (needle : ℚ) : Int :=
  if span.endMs < needle then -1
  else if span.beginMs > needle then 1
  else 0

/-- The `lastSpan` comparator of `drawSpanTrack`. -/
def lastSpanCmp (span : Span) (needle : ℚ) : Int :=
  if span.beginMs < needle then -1
  else if span.endMs > needle then 1
  else 0

/-- `firstSpan` after complement normalisation. -/
def firstSpanIndex (track : List Span) (needle : ℚ) : ℕ :=
  normIndex (binarySearch track needle firstSpanCmp)

/-- `lastSpan` after complement normalisation. -/
def lastSpanIndex (track : List Span) (needle : ℚ) : ℕ :=
  normIndex (binarySearch track needle lastSpanCmp)

/-- The indices visited by the loop
`for (spanIndex = firstSpan; spanIndex < lastSpan; spanIndex += 1)`,
with the needles `beginViewRange - processOffsetMs` and
`endViewRange - processOffsetMs` as in `drawSpanTrack`. -/
def visitedIndices (track : List Span) (beginViewRange endViewRange processOffsetMs : ℚ) :
    List ℕ :=
  let firstSpan := firstSpanIndex track (beginViewRange - processOffsetMs)
  let lastSpan := lastSpanIndex track (endViewRange - processOffsetMs)
  List.range' firstSpan (lastSpan - firstSpan)

/-- JavaScript `String.prototype.toLowerCase`, character by character. -/
def strToLower (s : String) : String := ⟨s.data.map Char.toLower⟩

/-- Whether `pat` occurs at the head of `l`. -/
def seqLeads : List Char → List Char → Bool
  | [], _ => true
  | _ :: _, [] => false
  | p :: ps, c :: cs => p == c && seqLeads ps cs

/-- JavaScript `hay.includes(needle)`: `needle` occurs contiguously in `hay`. -/
def strIncludes (hay needle : String) : Bool :=
  go hay.data
where
  go : List Char → Bool
    | [] => needle.data.isEmpty
    | c :: cs => seqLeads needle.data (c :: cs) || go cs

/-- JavaScript `value.slice(0, e)`: a negative end counts from the end of
the string, then is clamped at 0. -/
def jsSlice0 (v : String) (e : Int) : String :=
  let e' : Int := if e < 0 then (v.length : Int) + e else e
  ⟨v.data.take (max e' 0).toNat⟩

/-- `caption.split("::")`, specialised to the literal separator used by
`getCaptions` (leftmost-match scan, as in JavaScript `String.split`). -/
def splitOnColons : List Char → List (List Char)
  | [] => [[]]
  | ':' :: ':' :: rest => [] :: splitOnColons rest
  | c :: rest =>
    match splitOnColons rest with
    | [] => [[c]]
    | h :: t => (c :: h) :: t

/-- A `TimelineCaptionItem` yielded by `getCaptions`. -/
structure TimelineCaptionItem where
  value : String
  font : Option String := none
  color : Option String := none
  skippable : Bool := false
deriving DecidableEq, Repr

/-- The `while ((current = split.shift()))` loop of `getCaptions`: it stops
at the end of the list and also on an empty segment (falsy in JavaScript).
The last yielded segment is coloured `mainColor`, earlier ones `subColor`. -/
def captionTailItems : List (List Char) → List TimelineCaptionItem
  | [] => []
  | current :: rest =>
    if current.isEmpty then []
    else
      { value := ⟨':' :: ':' :: current⟩,
        font := some "15px arial",
        color := some (if rest.length > 0 then "#4d4d4d" else "#000000") }
        :: captionTailItems rest

/-- `getCaptions(caption, beginSpan, endSpan)`, collected eagerly
(`Array.from`).  `durText` stands for
`formatExecutionTime(endSpan - beginSpan)` (a formatting helper outside
the excerpt); the duration annotation is the only skippable item. -/
def getCaptions (caption : String) (durText : String) : List TimelineCaptionItem :=
  let split := splitOnColons caption.data
  (if split.length > 1 then
    match split with
    | [] => []
    | first :: rest =>
      { value := ⟨first⟩, font := some "15px arial", color := some "#4d4d4d" }
        :: captionTailItems rest
  else
    [{ value := caption, color := some "#000000" }])
  ++ [{ value := "  (" ++ durText ++ ")", color := some "#4d4d4d",
        font := some "12px arial", skippable := true }]

/-- `writeText(ctx, width, characterWidth, items, x, y)`, returning the list
of strings passed to `ctx.fillText`, in order.  `ctx.measureText(s).width`
is modelled as `s.length * characterWidth` (the code itself derives
`characterWidth` as the mean measured character width).  Per item:
`budget = Math.floor(width / characterWidth)`; `if (!budget) break`;
skippable items longer than the budget are skipped whole (`continue`);
otherwise `value.slice(0, budget)` is drawn and its measured width is
subtracted from the remaining `width`. -/
def writeText (characterWidth : ℚ) : ℚ → List TimelineCaptionItem → List String
  | _, [] => []
  | width, item :: rest =>
    let budget : Int := ⌊width / characterWidth⌋
    if budget = 0 then []
    else if (item.value.length : Int) > budget ∧ item.skippable then
      writeText characterWidth width rest
    else
      let textSlice := jsSlice0 item.value budget
      let size : ℚ := (textSlice.length : ℚ) * characterWidth
      textSlice :: writeText characterWidth (width - size) rest

/-- `trackIndex % 2 === 0 ? "#fea446" : "#fede99"`. -/
def getIndexColor (trackIndex : ℕ) : String :=
  if trackIndex % 2 = 0 then "#fea446" else "#fede99"

/-- One canvas draw call issued for a span.  `rect` records a
`ctx.fillRect` with its fill style and the `globalAlpha` in force;
`leftMarker` records a `drawSpanLeftMarker` invocation with the colour
handed to it (the marker fills one shaded pixel column — the internal
`shadeColor` arithmetic is presentation only); `text` records one
`ctx.fillText` issued by `writeText`. -/
inductive DrawCmd where
  | rect (style : String) (x y w h alpha : ℚ)
  | leftMarker (color : String) (callWidth beginPixels offsetY : ℚ)
  | text (s : String)
deriving DecidableEq, Repr

/-- `drawSpanLeftMarker(color, callWidth, beginPixels, offsetY)`: draws only
when `callWidth >= 8`. -/
def drawSpanLeftMarker (color : String) (callWidth beginPixels offsetY : ℚ) :
    List DrawCmd :=
  if callWidth ≥ 8 then [.leftMarker color callWidth beginPixels offsetY] else []

/-- Everything `drawSpanTrack` reads besides the track itself: the track
index, `processOffsetMs`, the `TimelineTrackContext` fields, the scope
table from the state store (`scopes[hash]` gives the scope's `name`, or
nothing when the hash has no entry), the measured text metrics, the
`spanPixelHeight` constant, and `formatExecutionTime`. -/
structure SpanDrawCtx where
  trackIndex : ℕ
  processOffsetMs : ℚ
  beginViewRange : ℚ
  endViewRange : ℚ
  msToPixelsFactor : ℚ
  search : String
  scopes : ℕ → Option String
  characterWidth : ℚ
  characterHeight : ℚ
  spanPixelHeight : ℚ
  fmt : ℚ → String

/-- The body of the `drawSpanTrack` loop for one span.  A sub-pixel span
(`callWidth < 0.1`) draws nothing (`continue`).  For `scopeHash !== 0` the
scope is looked up: `const { name } = scopes[span.scopeHash]` throws a
`TypeError` when the hash has no entry (destructuring `undefined`), which
the `.error` result models; otherwise the span rectangle is filled with
the highlight colour when the search term is a non-empty case-insensitive
substring of the name, the left marker is drawn, and wide-enough spans get
their caption.  For `scopeHash === 0` only a plain rectangle in the index
colour is drawn. -/
def drawSpan (ctx : SpanDrawCtx) (span : Span) : Except Unit (List DrawCmd) :=
  let beginSpan := span.beginMs + ctx.processOffsetMs
  let endSpan := span.endMs + ctx.processOffsetMs
  let beginPixels := (beginSpan - ctx.beginViewRange) * ctx.msToPixelsFactor
  let endPixels := (endSpan - ctx.beginViewRange) * ctx.msToPixelsFactor
  let callWidth := endPixels - beginPixels
  let offsetY := (ctx.trackIndex : ℚ) * ctx.spanPixelHeight
  let color := getIndexColor ctx.trackIndex
  if callWidth < 1 / 10 then .ok []
  else if span.scopeHash ≠ 0 then
    match ctx.scopes span.scopeHash with
    | none => .error ()
    | some name =>
      let fillStyle :=
        if ctx.search ≠ "" ∧ strIncludes (strToLower name) (strToLower ctx.search) then
          "#ffee59"
        else color
      let rect : DrawCmd :=
        .rect fillStyle beginPixels offsetY callWidth ctx.spanPixelHeight (span.alpha / 255)
      let markers := drawSpanLeftMarker fillStyle callWidth beginPixels offsetY
      let texts :=
        if callWidth > ctx.characterWidth * 5 then
          (writeText ctx.characterWidth callWidth
            (getCaptions name (ctx.fmt (endSpan - beginSpan)))).map .text
        else []
      .ok ([rect] ++ markers ++ texts)
  else
    .ok [.rect color beginPixels offsetY callWidth ctx.spanPixelHeight (span.alpha / 255)]

/-- Run the loop body over a list of span indices, accumulating draw calls;
a thrown `TypeError` aborts the remainder of the draw. -/
def drawIndices (ctx : SpanDrawCtx) (track : List Span) :
    List ℕ → List DrawCmd → Except Unit (List DrawCmd)
  | [], acc => .ok acc
  | i :: rest, acc =>
    match drawSpan ctx (sp track i) with
    | .error e => .error e
    | .ok cmds => drawIndices ctx track rest (acc ++ cmds)

/-- `drawSpanTrack(trackIndex, track, timelineTrackContext)`: locate
`firstSpan` / `lastSpan` by binary search, then run the loop. -/
def drawSpanTrack (ctx : SpanDrawCtx) (track : List Span) : Except Unit (List DrawCmd) :=
  drawIndices ctx track
    (visitedIndices track ctx.beginViewRange ctx.endViewRange ctx.processOffsetMs) []

/-- A block registration into an Interval Coverage Tracker: its LOD and the
time range it covers. -/
structure CovBlock where
  lod : ℕ
  startMs : ℚ
  endMs : ℚ
deriving DecidableEq, Repr

/-- Modelled from the spec: coverage of one LOD as a list of intervals kept
disjoint by merge-on-insert (§4.1: "coverage per LOD is best modeled as a
sorted list of disjoint intervals ... with merge-on-insert"); the
`MetricStore.registerBlock` implementation is not part of the excerpt.
Inserting `[lo, hi]` keeps entries it cannot touch and absorbs every
overlapping entry into a widened interval. -/
def ivInsert (lo hi : ℚ) : List (ℚ × ℚ) → List (ℚ × ℚ)
  | [] => [(lo, hi)]
  | (a, b) :: rest =>
    if hi < a then (lo, hi) :: (a, b) :: rest
    else if b < lo then (a, b) :: ivInsert lo hi rest
    else ivInsert (min lo a) (max hi b) rest

/-- An Interval Coverage Tracker: per-LOD fetched-coverage interval lists. -/
abbrev Tracker : Type := List (ℕ × List (ℚ × ℚ))

/-- Modelled from the spec: `registerBlock` "merges its time range into the
fetched-coverage set for its LOD" (§4.1). -/
def registerBlock (t : Tracker) (b : CovBlock) : Tracker :=
  match t with
  | [] => [(b.lod, [(b.startMs, b.endMs)])]
  | (l, ivs) :: rest =>
    if l = b.lod then (l, ivInsert b.startMs b.endMs ivs) :: rest
    else (l, ivs) :: registerBlock rest b

/-- Register a sequence of blocks in order. -/
def registerAll (t : Tracker) (bs : List CovBlock) : Tracker :=
  bs.foldl registerBlock t

/-- Whether a time point is inside one of the intervals. -/
def ivCovered (q : ℚ) (ivs : List (ℚ × ℚ)) : Bool :=
  ivs.any (fun iv => decide (iv.1 ≤ q ∧ q ≤ iv.2))

/-- The tracker's coverage state, observed as the set of covered time
points per LOD. -/
def covered (t : Tracker) (lod : ℕ) (q : ℚ) : Bool :=
  t.any (fun e => e.1 == lod && ivCovered q e.2)

/-- Whether one block's own range covers a time point at a LOD. -/
def blockCovers (b : CovBlock) (lod : ℕ) (q : ℚ) : Bool :=
  b.lod == lod && decide (b.startMs ≤ q ∧ q ≤ b.endMs)

/-- Structural well-formedness of a coverage list: every stored interval is
nonempty. -/
def ivsWF (ivs : List (ℚ × ℚ)) : Prop :=
  ∀ iv ∈ ivs, iv.1 ≤ iv.2

/-- Structural well-formedness of a tracker. -/
def trackerWF (t : Tracker) : Prop :=
  ∀ e ∈ t, ivsWF e.2

/-- Per-span well-formedness of a track (`beginMs <= endMs`), in the
bounded-quantifier form used by the hypotheses below. -/
def spansWF (track : List Span) : Prop :=
  ∀ i, i < track.length → (sp track i).beginMs ≤ (sp track i).endMs

/-- Adjacent non-overlap of a track: each span ends no later than the next
begins (the "lane of non-overlapping-in-display spans" track invariant);
together with `spansWF` this implies the ascending `beginMs` sort. -/
def spansSeparated (track : List Span) : Prop :=
  ∀ i, i < track.length - 1 → (sp track i).endMs ≤ (sp track (i + 1)).beginMs

/-- Ascending `beginMs` between adjacent spans (the sort order the claim
states). -/
def spansSortedByBegin (track : List Span) : Prop :=
  ∀ i, i < track.length - 1 → (sp track i).beginMs ≤ (sp track (i + 1)).beginMs

/-- `beginPixels` as computed in the `drawSpanTrack` loop body. -/
def beginPixelsOf (ctx : SpanDrawCtx) (span : Span) : ℚ :=
  (span.beginMs + ctx.processOffsetMs - ctx.beginViewRange) * ctx.msToPixelsFactor

/-- `endPixels` as computed in the `drawSpanTrack` loop body. -/
def endPixelsOf (ctx : SpanDrawCtx) (span : Span) : ℚ :=
  (span.endMs + ctx.processOffsetMs - ctx.beginViewRange) * ctx.msToPixelsFactor

/-- `callWidth = endPixels - beginPixels`. -/
def callWidthOf (ctx : SpanDrawCtx) (span : Span) : ℚ :=
  endPixelsOf ctx span - beginPixelsOf ctx span

/-- `offsetY = trackIndex * spanPixelHeight`. -/
def offsetYOf (ctx : SpanDrawCtx) : ℚ :=
  (ctx.trackIndex : ℚ) * ctx.spanPixelHeight

/-- The five-span track of the spec scenario:
`beginMs = [0,10,20,30,40]`, `endMs = [5,15,25,35,45]`. -/
def scenarioTrack : List Span :=
  [⟨0, 5, 255, 0⟩, ⟨10, 15, 255, 0⟩, ⟨20, 25, 255, 0⟩, ⟨30, 35, 255, 0⟩, ⟨40, 45, 255, 0⟩]

/-- A two-span track, sorted by `beginMs`, non-overlapping, with the second
span starting exactly at the viewport's right edge. -/
def boundaryTrack : List Span :=
  [⟨0, 5, 255, 0⟩, ⟨10, 20, 255, 0⟩]

/-- A draw context whose scope table is empty. -/
def missingScopeCtx : SpanDrawCtx :=
  { trackIndex := 0, processOffsetMs := 0, beginViewRange := 0, endViewRange := 10,
    msToPixelsFactor := 1, search := "", scopes := fun _ => none,
    characterWidth := 1, characterHeight := 1, spanPixelHeight := 20, fmt := fun _ => "" }

/-- A track whose only span references scope hash 5. -/
def missingScopeTrack : List Span := [⟨0, 10, 255, 5⟩]

/-- A span with `scopeHash = 0` inside the viewport of `missingScopeCtx`. -/
def zeroScopeSpan : Span := ⟨0, 10, 255, 0⟩

/-- A track whose only span is a hundredth of a pixel wide under
`missingScopeCtx`. -/
def tinySpanTrack : List Span := [⟨0, 1 / 100, 255, 1⟩]

/-- A store with one displayable metric that has ten missing blocks —
more pending fetches than the gate capacity of 8. -/
def demoStore : List MetricView :=
  [{ name := "cpu", canBeDisplayed := true,
     requestMissingBlocks := fun _ _ _ => List.replicate 10 ⟨"s", "b"⟩ }]

/-- A store with one displayable metric that is already fully covered. -/
def coveredStore : List MetricView :=
  [{ name := "cpu", canBeDisplayed := true, requestMissingBlocks := fun _ _ _ => [] }]

/-- Two overlapping same-LOD coverage blocks. -/
def covBlockA : CovBlock := ⟨0, 0, 5⟩

/-- Second of the two overlapping coverage blocks. -/
def covBlockB : CovBlock := ⟨0, 3, 9⟩

/-! ### List helper lemmas -/

theorem get?_some_lt {α : Type _} {l : List α} {i : ℕ} {a : α}
    (h : l.get? i = some a) : i < l.length := by
  induction l generalizing i with
  | nil => simp [List.get?] at h
  | cons x xs ih =>
    cases i with
    | zero => simp
    | succ j =>
      simp only [List.get?] at h
      have := ih h
      simp [Nat.succ_lt_succ_iff, this]

theorem get?_set_self {α : Type _} (l : List α) (i : ℕ) (b : α)
    (h : i < l.length) : (l.set i b).get? i = some b := by
  induction l generalizing i with
  | nil => simp at h
  | cons x xs ih =>
    cases i with
    | zero => simp [List.set]
    | succ j =>
      simp only [List.set, List.get?]
      exact ih j (by simpa using h)

theorem get?_set_other {α : Type _} (l : List α) (i j : ℕ) (b : α)
    (h : i ≠ j) : (l.set i b).get? j = l.get? j := by
  induction l generalizing i j with
  | nil => simp
  | cons x xs ih =>
    cases i with
    | zero =>
      cases j with
      | zero => exact absurd rfl h
      | succ j2 => simp [List.set]
    | succ i2 =>
      cases j with
      | zero => simp [List.set]
      | succ j2 =>
        simp only [List.set, List.get?]
        exact ih i2 j2 (fun hc => h (by rw [hc]))

theorem countP_set_balance {α : Type _} (l : List α) (i : ℕ) (a b : α)
    (p : α → Bool) (h : l.get? i = some a) :
    (l.set i b).countP p + (if p a then 1 else 0) =
      l.countP p + (if p b then 1 else 0) := by
  induction l generalizing i with
  | nil => simp [List.get?] at h
  | cons x xs ih =>
    cases i with
    | zero =>
      simp only [List.get?] at h
      cases h
      simp only [List.set, List.countP_cons]
      omega
    | succ j =>
      simp only [List.get?] at h
      simp only [List.set, List.countP_cons]
      have := ih j h
      omega

/-! ### C7: empty registry sentinel range -/

theorem buildMetricStates_go_nil (manifests : List BlockManifest)
    (acc : List MetricState) (h : ∀ m ∈ manifests, m.metrics = []) :
    manifests.foldl
      (fun states m =>
        m.metrics.foldl
          (fun states desc =>
            let states :=
              if (states.find? (fun s => s.name = desc.name)).isNone then
                states ++ [{ name := desc.name, min := desc.minMs, max := desc.maxMs,
                             blocks := [] }]
              else states
            states.map (fun s =>
              if s.name = desc.name then s.registerBlock m else s))
          states)
      acc = acc := by
  induction manifests generalizing acc with
  | nil => rfl
  | cons m ms ih =>
    have hm : m.metrics = [] := h m (by simp)
    simp only [List.foldl_cons, hm, List.foldl_nil]
    exact ih acc (fun x hx => h x (by simp [hx]))

theorem buildMetricStates_eq_nil (manifests : List BlockManifest)
    (h : ∀ m ∈ manifests, m.metrics = []) : buildMetricStates manifests = [] := by
  unfold buildMetricStates
  exact buildMetricStates_go_nil manifests [] h

/-- C7: when the registry contains no metrics (here: no manifest carries a
metric descriptor, in particular the empty manifest set), the global range
computed at the end of `initializeAsync` from `Math.min` / `Math.max` over
the empty spread does not throw and yields `currentMinMs = +Infinity`,
`currentMaxMs = -Infinity` — a sentinel with min > max, never NaN (the
model is total and NaN-free). -/
theorem initializeAsync_empty_sentinel (manifests : List BlockManifest)
    (h : ∀ m ∈ manifests, m.metrics = []) :
    initializeAsyncRange manifests = (XR.posInf, XR.negInf) ∧
      XR.ltB XR.negInf XR.posInf = true := by
  unfold initializeAsyncRange
  rw [buildMetricStates_eq_nil manifests h]
  exact ⟨rfl, rfl⟩

/-- Witness for C7 at the empty manifest set. -/
theorem initializeAsync_empty_sentinel_witness :
    initializeAsyncRange [] = (XR.posInf, XR.negInf) ∧
      XR.ltB XR.negInf XR.posInf = true :=
  initializeAsync_empty_sentinel [] (by simp)

/-! ### C6: no missing blocks means a no-op -/

theorem fetchSelectedMetrics_missing_nil (store : List MetricView)
    (currentMinMs currentMaxMs : ℚ) (lod : ℕ)
    (h : ∀ m ∈ store, m.canBeDisplayed = true →
      m.requestMissingBlocks currentMinMs currentMaxMs lod = []) :
    ((store.filter (fun m => m.canBeDisplayed)).map (fun m =>
        (m.name, m.requestMissingBlocks currentMinMs currentMaxMs lod))).flatMap
      (fun b => b.2) = [] := by
  induction store with
  | nil => rfl
  | cons m ms ih =>
    by_cases hd : m.canBeDisplayed = true
    · have hm := h m (by simp) hd
      simp only [List.filter_cons, hd, if_pos, List.map_cons, List.flatMap_cons, hm,
        List.nil_append]
      exact ih (fun x hx hxd => h x (by simp [hx]) hxd)
    · have hd2 : m.canBeDisplayed = false := by
        cases hv : m.canBeDisplayed
        · rfl
        · exact absurd hv hd
      simp only [List.filter_cons, hd2, Bool.false_eq_true, if_false]
      exact ih (fun x hx hxd => h x (by simp [hx]) hxd)

theorem gateReachable_no_tasks (specs : List (String × Blk)) (s : GateState)
    (h : GateReachable specs (initGateState 0) s) : s = initGateState 0 := by
  induction h with
  | refl => rfl
  | tail _ hstep ih =>
    subst ih
    cases hstep with
    | acquire i hw hp => simp [initGateState, List.get?] at hw
    | fetchOk i data hh => simp [initGateState, List.get?] at hh
    | fetchNone i hh => simp [initGateState, List.get?] at hh
    | fetchErr i hh => simp [initGateState, List.get?] at hh

/-- C6: if `requestMissingBlocks` is empty for every displayable metric,
`fetchSelectedMetrics` returns at the early null-check: no fetch task is
spawned, and with no tasks the gate semantics admits no step at all, so
nothing is fetched and no tracker or store state is mutated (`permits`,
`tasks` and `registered` all stay at their initial values). -/
theorem fetchSelectedMetrics_noop (store : List MetricView)
    (currentMinMs currentMaxMs : ℚ) (lod : ℕ)
    (h : ∀ m ∈ store, m.canBeDisplayed = true →
      m.requestMissingBlocks currentMinMs currentMaxMs lod = []) :
    fetchSelectedMetrics store currentMinMs currentMaxMs lod = [] ∧
      ∀ s, GateReachable (fetchSelectedMetrics store currentMinMs currentMaxMs lod)
          (initGateState (fetchSelectedMetrics store currentMinMs currentMaxMs lod).length)
          s → s = initGateState 0 := by
  have hempty : fetchSelectedMetrics store currentMinMs currentMaxMs lod = [] := by
    simp only [fetchSelectedMetrics]
    rw [fetchSelectedMetrics_missing_nil store currentMinMs currentMaxMs lod h]
    rfl
  refine ⟨hempty, ?_⟩
  intro s hs
  rw [hempty] at hs
  exact gateReachable_no_tasks _ s hs

/-- Witness for C6: a displayable metric whose coverage is complete. -/
theorem fetchSelectedMetrics_noop_witness :
    fetchSelectedMetrics coveredStore 0 100 3 = [] ∧
      ∀ s, GateReachable (fetchSelectedMetrics coveredStore 0 100 3)
          (initGateState (fetchSelectedMetrics coveredStore 0 100 3).length) s →
        s = initGateState 0 :=
  fetchSelectedMetrics_noop coveredStore 0 100 3 (by
    intro m hm _
    simp only [coveredStore, List.mem_singleton] at hm
    rw [hm])

/-! ### C4: the gate never admits more than its capacity -/

/-- The structural gate invariant: free permits plus holders equals the
semaphore's capacity. -/
def gateInv (s : GateState) : Prop :=
  s.permits + holdersCount s = gateCapacity

theorem gateStep_preserves_inv (specs : List (String × Blk)) (s s' : GateState)
    (hstep : GateStep specs s s') (hinv : gateInv s) : gateInv s' := by
  cases hstep with
  | acquire i hw hp =>
    have hbal := countP_set_balance s.tasks i .waiting .holding
      (fun t => t == TaskPhase.holding) hw
    simp only [gateInv, holdersCount] at *
    simp at hbal
    omega
  | fetchOk i data hh =>
    have hbal := countP_set_balance s.tasks i .holding .done
      (fun t => t == TaskPhase.holding) hh
    simp only [gateInv, holdersCount] at *
    simp at hbal
    omega
  | fetchNone i hh =>
    have hbal := countP_set_balance s.tasks i .holding .done
      (fun t => t == TaskPhase.holding) hh
    simp only [gateInv, holdersCount] at *
    simp at hbal
    omega
  | fetchErr i hh =>
    have hbal := countP_set_balance s.tasks i .holding .done
      (fun t => t == TaskPhase.holding) hh
    simp only [gateInv, holdersCount] at *
    simp at hbal
    omega

theorem holdersCount_init (n : ℕ) : holdersCount (initGateState n) = 0 := by
  simp only [holdersCount, initGateState, List.countP_eq_zero]
  intro t ht
  have := List.eq_of_mem_replicate ht
  subst this
  decide

theorem gateReachable_inv (specs : List (String × Blk)) (n : ℕ) (s : GateState)
    (h : GateReachable specs (initGateState n) s) : gateInv s := by
  induction h with
  | refl =>
    have h0 := holdersCount_init n
    simp only [initGateState] at h0
    simp only [gateInv, initGateState, h0]
    omega
  | tail _ hstep ih => exact gateStep_preserves_inv specs _ _ hstep ih

/-- C4: along every interleaving of the fetch tasks spawned by
`fetchSelectedMetrics` — for any store, viewport and LOD, in particular
with more pending blocks than capacity — the number of simultaneous
holders of the concurrency gate never exceeds the fixed capacity 8. -/
theorem gate_holders_le_capacity (store : List MetricView)
    (currentMinMs currentMaxMs : ℚ) (lod : ℕ) (s : GateState)
    (h : GateReachable (fetchSelectedMetrics store currentMinMs currentMaxMs lod)
      (initGateState (fetchSelectedMetrics store currentMinMs currentMaxMs lod).length)
      s) : holdersCount s ≤ gateCapacity := by
  have := gateReachable_inv _ _ s h
  simp only [gateInv] at this
  omega

/-- Witness for C4: ten pending blocks (more than capacity 8), after one
acquire step. -/
theorem gate_holders_le_capacity_witness :
    holdersCount
      { permits := (initGateState (fetchSelectedMetrics demoStore 0 100 0).length).permits - 1,
        tasks := (initGateState (fetchSelectedMetrics demoStore 0 100 0).length).tasks.set
          0 .holding,
        registered :=
          (initGateState (fetchSelectedMetrics demoStore 0 100 0).length).registered } ≤
      gateCapacity :=
  gate_holders_le_capacity demoStore 0 100 0 _
    (Relation.ReflTransGen.single
      (GateStep.acquire _ 0 (by decide) (by decide)))

/-! ### C5: a failed fetch releases its unit, registers nothing, and blocks no sibling -/

/-- C5: for a fetch task of `fetchSelectedMetrics` that ends in error, the
`finally` releases the gate unit, `registerBlock` is not called (the
fetched coverage is unchanged, so the block's range stays absent), every
other task is untouched, and every sibling task not yet finished can still
proceed to completion afterwards. -/
theorem fetch_error_isolated (store : List MetricView)
    (currentMinMs currentMaxMs : ℚ) (lod : ℕ) (s : GateState) (i : ℕ)
    (hh : s.tasks.get? i = some .holding) :
    GateStep (fetchSelectedMetrics store currentMinMs currentMaxMs lod) s
        (errStepState s i) ∧
      (errStepState s i).registered = s.registered ∧
      (errStepState s i).permits = s.permits + 1 ∧
      (∀ j, j ≠ i → (errStepState s i).tasks.get? j = s.tasks.get? j) ∧
      (∀ j ph, j ≠ i → s.tasks.get? j = some ph → ph ≠ .done →
        ∃ s', GateReachable (fetchSelectedMetrics store currentMinMs currentMaxMs lod)
            (errStepState s i) s' ∧ s'.tasks.get? j = some .done) := by
  refine ⟨GateStep.fetchErr s i hh, rfl, rfl, ?_, ?_⟩
  · intro j hne
    exact get?_set_other s.tasks i j .done (fun hc => hne hc.symm)
  · intro j ph hne hj hnd
    have hjlen : j < s.tasks.length := get?_some_lt hj
    have hs1get : (errStepState s i).tasks.get? j = some ph := by
      rw [show (errStepState s i).tasks = s.tasks.set i TaskPhase.done from rfl,
        get?_set_other s.tasks i j TaskPhase.done (fun hc => hne hc.symm)]
      exact hj
    have hs1len : (errStepState s i).tasks.length = s.tasks.length := by
      simp [errStepState, List.length_set]
    cases ph with
    | done => exact absurd rfl hnd
    | holding =>
      refine ⟨{ permits := (errStepState s i).permits + 1,
                tasks := (errStepState s i).tasks.set j TaskPhase.done,
                registered := (errStepState s i).registered },
        Relation.ReflTransGen.single (GateStep.fetchErr _ j hs1get), ?_⟩
      exact get?_set_self _ j TaskPhase.done (by rw [hs1len]; exact hjlen)
    | waiting =>
      have hstep1 : GateStep (fetchSelectedMetrics store currentMinMs currentMaxMs lod)
          (errStepState s i)
          { permits := (errStepState s i).permits - 1,
            tasks := (errStepState s i).tasks.set j TaskPhase.holding,
            registered := (errStepState s i).registered } :=
        GateStep.acquire _ j hs1get (by simp [errStepState])
      have hs2get : ((errStepState s i).tasks.set j TaskPhase.holding).get? j =
          some .holding :=
        get?_set_self _ j TaskPhase.holding (by rw [hs1len]; exact hjlen)
      refine ⟨{ permits := (errStepState s i).permits - 1 + 1,
                tasks := ((errStepState s i).tasks.set j TaskPhase.holding).set
                  j TaskPhase.done,
                registered := (errStepState s i).registered },
        Relation.ReflTransGen.head hstep1
          (Relation.ReflTransGen.single (GateStep.fetchErr _ j hs2get)), ?_⟩
      exact get?_set_self _ j TaskPhase.done
        (by simp only [List.length_set]; rw [hs1len]; exact hjlen)

/-- Witness for C5: one holding task, its fetch fails. -/
theorem fetch_error_isolated_witness :
    GateStep (fetchSelectedMetrics demoStore 0 100 0)
        { permits := 7, tasks := [TaskPhase.holding], registered := [] }
        (errStepState { permits := 7, tasks := [TaskPhase.holding], registered := [] } 0) ∧
      (errStepState { permits := 7, tasks := [TaskPhase.holding], registered := [] }
          0).registered = [] ∧
      (errStepState { permits := 7, tasks := [TaskPhase.holding], registered := [] }
          0).permits = 7 + 1 ∧
      (∀ j, j ≠ 0 →
        (errStepState { permits := 7, tasks := [TaskPhase.holding], registered := [] }
            0).tasks.get? j =
          (([TaskPhase.holding] : List TaskPhase)).get? j) ∧
      (∀ j ph, j ≠ 0 →
        (([TaskPhase.holding] : List TaskPhase)).get? j = some ph → ph ≠ .done →
        ∃ s', GateReachable (fetchSelectedMetrics demoStore 0 100 0)
            (errStepState { permits := 7, tasks := [TaskPhase.holding], registered := [] }
              0) s' ∧
          s'.tasks.get? j = some .done) :=
  fetch_error_isolated demoStore 0 100 0
    { permits := 7, tasks := [TaskPhase.holding], registered := [] } 0 rfl

/-! ### C10 / C9 / C3: the per-span draw paths -/

/-- C10: a visible span with `scopeHash === 0` takes the `else` branch of
`drawSpanTrack`: exactly one plain rectangle in the track's index colour,
with no scope lookup (the result does not depend on `ctx.scopes` — the
equation holds even for an empty scope table), no caption, and no
search-highlight colour (the result does not depend on `ctx.search`). -/
theorem drawSpan_zero_scope (ctx : SpanDrawCtx) (span : Span)
    (h0 : span.scopeHash = 0) (hw : ¬ callWidthOf ctx span < 1 / 10) :
    drawSpan ctx span =
      .ok [.rect (getIndexColor ctx.trackIndex) (beginPixelsOf ctx span) (offsetYOf ctx)
        (callWidthOf ctx span) ctx.spanPixelHeight (span.alpha / 255)] := by
  simp only [callWidthOf, endPixelsOf, beginPixelsOf] at hw
  simp only [drawSpan, beginPixelsOf, offsetYOf, callWidthOf, endPixelsOf]
  rw [if_neg hw, if_neg (by simp [h0])]

/-- Witness for C10. -/
theorem drawSpan_zero_scope_witness :
    drawSpan missingScopeCtx zeroScopeSpan =
      .ok [.rect (getIndexColor missingScopeCtx.trackIndex)
        (beginPixelsOf missingScopeCtx zeroScopeSpan) (offsetYOf missingScopeCtx)
        (callWidthOf missingScopeCtx zeroScopeSpan) missingScopeCtx.spanPixelHeight
        (zeroScopeSpan.alpha / 255)] :=
  drawSpan_zero_scope missingScopeCtx zeroScopeSpan rfl (by
    simp only [callWidthOf, endPixelsOf, beginPixelsOf, missingScopeCtx, zeroScopeSpan]
    norm_num)

theorem drawSpan_subpixel (ctx : SpanDrawCtx) (span : Span)
    (hw : callWidthOf ctx span < 1 / 10) : drawSpan ctx span = .ok [] := by
  simp only [callWidthOf, endPixelsOf, beginPixelsOf] at hw
  simp only [drawSpan]
  rw [if_pos hw]

theorem drawIndices_skip_nil (ctx : SpanDrawCtx) (track : List Span) (i : ℕ)
    (h : drawSpan ctx (sp track i) = .ok []) :
    ∀ (idxs : List ℕ) (acc : List DrawCmd),
      drawIndices ctx track idxs acc = drawIndices ctx track (idxs.erase i) acc := by
  intro idxs
  induction idxs with
  | nil => intro acc; rfl
  | cons j rest ih =>
    intro acc
    by_cases hji : j = i
    · subst hji
      rw [List.erase_cons_head]
      simp only [drawIndices, h, List.append_nil]
    · rw [List.erase_cons_tail (by simpa using hji)]
      simp only [drawIndices]
      cases drawSpan ctx (sp track j) with
      | error e => rfl
      | ok cmds => exact ih (acc ++ cmds)

/-- C9: a visible span whose computed pixel width is below 0.1 hits the
`continue`: nothing at all is drawn for it (no rectangle, marker or
caption — `drawSpan` yields no draw call), and the track draw is exactly
the draw of the remaining visited spans (the loop still advances). -/
theorem drawSpan_subpixel_skipped (ctx : SpanDrawCtx) (track : List Span) (i : ℕ)
    (hw : callWidthOf ctx (sp track i) < 1 / 10) :
    drawSpan ctx (sp track i) = .ok [] ∧
      drawSpanTrack ctx track =
        drawIndices ctx track
          ((visitedIndices track ctx.beginViewRange ctx.endViewRange
            ctx.processOffsetMs).erase i) [] := by
  have h := drawSpan_subpixel ctx (sp track i) hw
  exact ⟨h, drawIndices_skip_nil ctx track i h _ []⟩

/-- Witness for C9: a hundredth-of-a-pixel span; erasing it empties the
visited list. -/
theorem drawSpan_subpixel_skipped_witness :
    drawSpan missingScopeCtx (sp tinySpanTrack 0) = .ok [] ∧
      drawSpanTrack missingScopeCtx tinySpanTrack =
        drawIndices missingScopeCtx tinySpanTrack
          ((visitedIndices tinySpanTrack missingScopeCtx.beginViewRange
            missingScopeCtx.endViewRange missingScopeCtx.processOffsetMs).erase 0) [] :=
  drawSpan_subpixel_skipped missingScopeCtx tinySpanTrack 0 (by
    simp only [callWidthOf, endPixelsOf, beginPixelsOf, missingScopeCtx, tinySpanTrack,
      sp, List.getD]
    norm_num)

theorem drawSpan_missing_scope (ctx : SpanDrawCtx) (span : Span)
    (hnz : span.scopeHash ≠ 0) (hmiss : ctx.scopes span.scopeHash = none)
    (hw : ¬ callWidthOf ctx span < 1 / 10) : drawSpan ctx span = .error () := by
  simp only [callWidthOf, endPixelsOf, beginPixelsOf] at hw
  simp only [drawSpan]
  rw [if_neg hw, if_pos hnz, hmiss]

theorem drawIndices_error_of_mem (ctx : SpanDrawCtx) (track : List Span) (i : ℕ)
    (h : drawSpan ctx (sp track i) = .error ()) :
    ∀ (idxs : List ℕ) (acc : List DrawCmd), i ∈ idxs →
      drawIndices ctx track idxs acc = .error () := by
  intro idxs
  induction idxs with
  | nil => intro acc hmem; simp at hmem
  | cons j rest ih =>
    intro acc hmem
    simp only [drawIndices]
    cases hd : drawSpan ctx (sp track j) with
    | error e => cases e; rfl
    | ok cmds =>
      rcases List.mem_cons.mp hmem with hji | hmem2
      · subst hji; rw [hd] at h; cases h
      · exact ih (acc ++ cmds) hmem2

/-- C3 (amended): a visible span (`callWidth >= 0.1`) with a nonzero
`scopeHash` that is missing from the scope table makes
`const { name } = scopes[span.scopeHash]` destructure `undefined`: the
resulting `TypeError` propagates and aborts the whole track draw.  The
code does not degrade to an unlabeled rectangle for such spans — the
unlabeled-rectangle path exists only for `scopeHash === 0`. -/
theorem drawSpan_missing_scope_throws (ctx : SpanDrawCtx) (span : Span)
    (hnz : span.scopeHash ≠ 0) (hmiss : ctx.scopes span.scopeHash = none)
    (hw : ¬ callWidthOf ctx span < 1 / 10) :
    drawSpan ctx span = .error () ∧
      ∀ (track : List Span) (i : ℕ), sp track i = span →
        i ∈ visitedIndices track ctx.beginViewRange ctx.endViewRange
          ctx.processOffsetMs →
        drawSpanTrack ctx track = .error () := by
  have h := drawSpan_missing_scope ctx span hnz hmiss hw
  refine ⟨h, ?_⟩
  intro track i hsp hmem
  exact drawIndices_error_of_mem ctx track i (by rw [hsp]; exact h) _ [] hmem

section ConcreteEval

attribute [local semireducible] Rat.add Rat.sub Rat.mul Rat.inv

/-- Counterexample for C3 as stated: a track whose only span (fully inside
the viewport, 10 pixels wide) references the unknown scope hash 5 under an
empty scope table; the whole draw aborts with the thrown error instead of
degrading to an unlabeled rectangle and continuing. -/
theorem missing_scope_aborts_draw :
    drawSpanTrack missingScopeCtx missingScopeTrack = .error () := rfl

/-- Witness for the amended C3. -/
theorem drawSpan_missing_scope_throws_witness :
    drawSpan missingScopeCtx ⟨0, 10, 255, 5⟩ = .error () ∧
      drawSpanTrack missingScopeCtx missingScopeTrack = .error () :=
  ⟨(drawSpan_missing_scope_throws missingScopeCtx ⟨0, 10, 255, 5⟩ (by decide) rfl
      (by decide)).1,
    (drawSpan_missing_scope_throws missingScopeCtx ⟨0, 10, 255, 5⟩ (by decide) rfl
      (by decide)).2 missingScopeTrack 0 rfl (by decide)⟩

end ConcreteEval

/-! ### C2: caption truncation stops at an exhausted budget -/

theorem writeText_break (cw width : ℚ) (item : TimelineCaptionItem)
    (rest : List TimelineCaptionItem) (h : ⌊width / cw⌋ = 0) :
    writeText cw width (item :: rest) = [] := by
  simp only [writeText, h]
  norm_num

theorem writeText_draw (cw width : ℚ) (item : TimelineCaptionItem)
    (rest : List TimelineCaptionItem) (b : Int) (hb : ⌊width / cw⌋ = b) (h0 : b ≠ 0)
    (h1 : ¬ ((item.value.length : Int) > b ∧ item.skippable = true)) :
    writeText cw width (item :: rest) =
      jsSlice0 item.value b ::
        writeText cw (width - ((jsSlice0 item.value b).length : ℚ) * cw) rest := by
  simp only [writeText, hb]
  rw [if_neg h0, if_neg (by simpa using h1)]

/-- C2: rendering the caption sequence of `"ns::inner::leaf"` with a pixel
budget that covers exactly the first segment (`⌊width / characterWidth⌋ = 2`,
the two characters of `"ns"`) draws `"ns"` and stops: the remaining budget
floors to zero, `!budget` breaks the loop, and no prefix of the
non-skippable segment `"::inner"` is ever passed to `fillText`. -/
theorem writeText_first_segment_only (characterWidth width : ℚ) (durText : String)
    (hcw : 0 < characterWidth) (h2 : 2 * characterWidth ≤ width)
    (h3 : width < 3 * characterWidth) :
    writeText characterWidth width (getCaptions "ns::inner::leaf" durText) = ["ns"] := by
  have hb1 : ⌊width / characterWidth⌋ = 2 := by
    rw [Int.floor_eq_iff]
    constructor
    · push_cast
      rw [le_div_iff₀ hcw]; linarith
    · push_cast
      rw [div_lt_iff₀ hcw]; linarith
  have hb2 : ⌊(width - 2 * characterWidth) / characterWidth⌋ = 0 := by
    rw [Int.floor_eq_zero_iff, Set.mem_Ico]
    constructor
    · exact div_nonneg (by linarith) hcw.le
    · rw [div_lt_one hcw]; linarith
  have hcap : getCaptions "ns::inner::leaf" durText =
      { value := "ns", font := some "15px arial", color := some "#4d4d4d" } ::
      { value := "::inner", font := some "15px arial", color := some "#4d4d4d" } ::
      ({ value := "::leaf", font := some "15px arial", color := some "#000000" } ::
        [{ value := "  (" ++ durText ++ ")", color := some "#4d4d4d",
           font := some "12px arial", skippable := true }]) := rfl
  rw [hcap, writeText_draw characterWidth width _ _ 2 hb1 (by norm_num) (by decide)]
  have hsl : jsSlice0 "ns" (2 : Int) = "ns" := rfl
  rw [hsl]
  have hlen : (("ns".length : ℕ) : ℚ) = 2 := by
    rw [show ("ns".length : ℕ) = 2 from rfl]; norm_num
  rw [hlen, writeText_break _ _ _ _ hb2]

/-- Witness for C2: a one-pixel-per-character budget of two pixels. -/
theorem writeText_first_segment_only_witness :
    writeText 1 2 (getCaptions "ns::inner::leaf" "1 ms") = ["ns"] :=
  writeText_first_segment_only 1 2 "1 ms" (by norm_num) (by norm_num) (by norm_num)

/-! ### C8: block registration is order independent -/

theorem ivInsert_wf (lo hi : ℚ) (ivs : List (ℚ × ℚ)) (hlo : lo ≤ hi)
    (hwf : ivsWF ivs) : ivsWF (ivInsert lo hi ivs) := by
  induction ivs generalizing lo hi with
  | nil =>
    intro iv hiv
    simp only [ivInsert, List.mem_singleton] at hiv
    subst hiv
    exact hlo
  | cons e rest ih =>
    obtain ⟨a, b⟩ := e
    have hab : a ≤ b := hwf (a, b) (by simp)
    have hrest : ivsWF rest := fun iv hiv => hwf iv (by simp [hiv])
    simp only [ivInsert]
    by_cases h1 : hi < a
    · rw [if_pos h1]
      intro iv hiv
      rcases List.mem_cons.mp hiv with h | h
      · subst h; exact hlo
      · exact hwf iv (by simp [h])
    · rw [if_neg h1]
      by_cases h2 : b < lo
      · rw [if_pos h2]
        intro iv hiv
        rcases List.mem_cons.mp hiv with h | h
        · subst h; exact hab
        · exact ih lo hi hlo hrest iv h
      · rw [if_neg h2]
        exact ih _ _ (le_trans (min_le_left lo a) (le_trans hlo (le_max_left hi b)))
          hrest

theorem ivCovered_insert (lo hi : ℚ) (ivs : List (ℚ × ℚ)) (q : ℚ) (hlo : lo ≤ hi)
    (hwf : ivsWF ivs) :
    ivCovered q (ivInsert lo hi ivs) = (decide (lo ≤ q ∧ q ≤ hi) || ivCovered q ivs) := by
  induction ivs generalizing lo hi with
  | nil => simp [ivInsert, ivCovered]
  | cons e rest ih =>
    obtain ⟨a, b⟩ := e
    have hab : a ≤ b := hwf (a, b) (by simp)
    have hrest : ivsWF rest := fun iv hiv => hwf iv (by simp [hiv])
    simp only [ivInsert]
    by_cases h1 : hi < a
    · rw [if_pos h1]
      simp [ivCovered]
    · rw [if_neg h1]
      by_cases h2 : b < lo
      · rw [if_pos h2]
        simp only [ivCovered, List.any_cons] at *
        rw [ih lo hi hlo hrest]
        cases decide (lo ≤ q ∧ q ≤ hi) <;> cases decide (a ≤ q ∧ q ≤ b) <;> simp
      · rw [if_neg h2]
        rw [ih _ _ (le_trans (min_le_left lo a) (le_trans hlo (le_max_left hi b))) hrest]
        have hmem : (min lo a ≤ q ∧ q ≤ max hi b) ↔
            ((lo ≤ q ∧ q ≤ hi) ∨ (a ≤ q ∧ q ≤ b)) := by
          have hu := Set.Icc_union_Icc' (le_of_not_lt h1) (le_of_not_lt h2)
            (a := lo) (b := hi) (c := a) (d := b)
          have hq := Set.ext_iff.mp hu q
          simpa [Set.mem_union, Set.mem_Icc] using hq.symm
        rw [show decide (min lo a ≤ q ∧ q ≤ max hi b) =
            (decide (lo ≤ q ∧ q ≤ hi) || decide (a ≤ q ∧ q ≤ b)) by
          rw [← Bool.decide_or]
          exact decide_eq_decide.mpr hmem]
        simp only [ivCovered, List.any_cons]
        cases decide (lo ≤ q ∧ q ≤ hi) <;> cases decide (a ≤ q ∧ q ≤ b) <;> simp

theorem registerBlock_wf (t : Tracker) (b : CovBlock) (hwf : trackerWF t)
    (hb : b.startMs ≤ b.endMs) : trackerWF (registerBlock t b) := by
  induction t with
  | nil =>
    intro e he
    simp only [registerBlock, List.mem_singleton] at he
    subst he
    intro iv hiv
    simp only [List.mem_singleton] at hiv
    subst hiv
    exact hb
  | cons hd rest ih =>
    obtain ⟨l, ivs⟩ := hd
    have hivs : ivsWF ivs := hwf (l, ivs) (by simp)
    have hrest : trackerWF rest := fun e he => hwf e (by simp [he])
    simp only [registerBlock]
    by_cases hl : l = b.lod
    · rw [if_pos hl]
      intro e he
      rcases List.mem_cons.mp he with h | h
      · subst h; exact ivInsert_wf b.startMs b.endMs ivs hb hivs
      · exact hrest e h
    · rw [if_neg hl]
      intro e he
      rcases List.mem_cons.mp he with h | h
      · subst h; exact hivs
      · exact ih hrest e h

theorem covered_registerBlock (t : Tracker) (b : CovBlock) (lod : ℕ) (q : ℚ)
    (hwf : trackerWF t) (hb : b.startMs ≤ b.endMs) :
    covered (registerBlock t b) lod q = (blockCovers b lod q || covered t lod q) := by
  induction t with
  | nil => simp [registerBlock, covered, blockCovers, ivCovered]
  | cons hd rest ih =>
    obtain ⟨l, ivs⟩ := hd
    have hivs : ivsWF ivs := hwf (l, ivs) (by simp)
    have hrest : trackerWF rest := fun e he => hwf e (by simp [he])
    simp only [registerBlock]
    by_cases hl : l = b.lod
    · rw [if_pos hl]
      subst hl
      simp only [covered, List.any_cons, blockCovers,
        ivCovered_insert b.startMs b.endMs ivs q hb hivs]
      cases b.lod == lod <;>
        cases decide (b.startMs ≤ q ∧ q ≤ b.endMs) <;>
        cases ivCovered q ivs <;> simp
    · rw [if_neg hl]
      simp only [covered, List.any_cons] at *
      rw [ih hrest]
      cases (l == lod) && ivCovered q ivs <;> cases blockCovers b lod q <;> simp

theorem covered_registerAll (bs : List CovBlock) (t : Tracker) (lod : ℕ) (q : ℚ)
    (hwf : trackerWF t) (hbs : ∀ b ∈ bs, b.startMs ≤ b.endMs) :
    covered (registerAll t bs) lod q = (bs.any (fun b => blockCovers b lod q) ||
      covered t lod q) := by
  induction bs generalizing t with
  | nil => simp [registerAll]
  | cons b rest ih =>
    have hb : b.startMs ≤ b.endMs := hbs b (by simp)
    have hrest : ∀ x ∈ rest, x.startMs ≤ x.endMs := fun x hx => hbs x (by simp [hx])
    simp only [registerAll, List.foldl_cons] at *
    rw [ih (registerBlock t b) (registerBlock_wf t b hwf hb) hrest,
      covered_registerBlock t b lod q hwf hb, List.any_cons]
    cases blockCovers b lod q <;> cases rest.any (fun x => blockCovers x lod q) <;> simp

/-- C8: registering any set of (well-formed) blocks into one Interval
Coverage Tracker yields the same coverage state in every registration
order: for every LOD and every time point, the point is covered after one
order iff it is covered after the other.  (`registerBlock` is modelled
from the spec as per-LOD merge-on-insert, §4.1.) -/
theorem registerBlock_order_independent (t : Tracker) (bs1 bs2 : List CovBlock)
    (hwf : trackerWF t) (hbs : ∀ b ∈ bs1, b.startMs ≤ b.endMs)
    (hperm : bs1.Perm bs2) (lod : ℕ) (q : ℚ) :
    covered (registerAll t bs1) lod q = covered (registerAll t bs2) lod q := by
  rw [covered_registerAll bs1 t lod q hwf hbs,
    covered_registerAll bs2 t lod q hwf (fun b hb => hbs b (hperm.mem_iff.mpr hb))]
  have hany : (bs1.any (fun b => blockCovers b lod q)) =
      (bs2.any (fun b => blockCovers b lod q)) := by
    have h1 : (bs1.any (fun b => blockCovers b lod q) = true) ↔
        (bs2.any (fun b => blockCovers b lod q) = true) := by
      simp only [List.any_eq_true]
      exact ⟨fun ⟨x, hx, hfx⟩ => ⟨x, hperm.subset hx, hfx⟩,
        fun ⟨x, hx, hfx⟩ => ⟨x, hperm.symm.subset hx, hfx⟩⟩
    cases hb1 : bs1.any (fun b => blockCovers b lod q) <;>
      cases hb2 : bs2.any (fun b => blockCovers b lod q)
    · rfl
    · rw [hb1, hb2] at h1; simp at h1
    · rw [hb1, hb2] at h1; simp at h1
    · rfl
  rw [hany]

/-- Witness for C8: two overlapping same-LOD blocks in both orders, probed
at LOD 0 and time 4. -/
theorem registerBlock_order_independent_witness :
    covered (registerAll [] [covBlockA, covBlockB]) 0 4 =
      covered (registerAll [] [covBlockB, covBlockA]) 0 4 :=
  registerBlock_order_independent [] [covBlockA, covBlockB] [covBlockB, covBlockA]
    (fun e he => absurd he (List.not_mem_nil e))
    (by
      intro b hb
      rcases List.mem_cons.mp hb with h | h
      · subst h; norm_num [covBlockA]
      · simp only [List.mem_singleton] at h
        subst h; norm_num [covBlockB])
    (List.Perm.swap covBlockB covBlockA []) 0 4

/-! ### C1: the visited span range -/

theorem mem_range'_iff (s n m : ℕ) : m ∈ List.range' s n ↔ s ≤ m ∧ m < s + n := by
  rw [List.mem_range']
  constructor
  · rintro ⟨i, hi, rfl⟩; omega
  · intro h
    exact ⟨m - s, by omega, by omega⟩

theorem spans_begin_mono (track : List Span) (hwf : spansWF track)
    (hsep : spansSeparated track) :
    ∀ i j, i ≤ j → j < track.length → (sp track i).beginMs ≤ (sp track j).beginMs := by
  intro i j
  induction j with
  | zero =>
    intro hij _
    rw [Nat.le_zero.mp hij]
  | succ j ih =>
    intro hij hlt
    rcases Nat.lt_succ_iff_lt_or_eq.mp (Nat.lt_succ_of_le hij) with hlt2 | heq
    · have h1 : (sp track i).beginMs ≤ (sp track j).beginMs :=
        ih (Nat.lt_succ_iff.mp hlt2) (Nat.lt_of_succ_lt hlt)
      have h2 : (sp track j).beginMs ≤ (sp track j).endMs :=
        hwf j (Nat.lt_of_succ_lt hlt)
      have h3 : (sp track j).endMs ≤ (sp track (j + 1)).beginMs :=
        hsep j (by omega)
      linarith
    · rw [heq]

theorem spans_end_mono (track : List Span) (hwf : spansWF track)
    (hsep : spansSeparated track) :
    ∀ i j, i ≤ j → j < track.length → (sp track i).endMs ≤ (sp track j).endMs := by
  intro i j
  induction j with
  | zero =>
    intro hij _
    rw [Nat.le_zero.mp hij]
  | succ j ih =>
    intro hij hlt
    rcases Nat.lt_succ_iff_lt_or_eq.mp (Nat.lt_succ_of_le hij) with hlt2 | heq
    · have h1 : (sp track i).endMs ≤ (sp track j).endMs :=
        ih (Nat.lt_succ_iff.mp hlt2) (Nat.lt_of_succ_lt hlt)
      have h2 : (sp track j).endMs ≤ (sp track (j + 1)).beginMs := hsep j (by omega)
      have h3 : (sp track (j + 1)).beginMs ≤ (sp track (j + 1)).endMs := hwf (j + 1) hlt
      linarith
    · rw [heq]

theorem spans_cross_le (track : List Span) (hwf : spansWF track)
    (hsep : spansSeparated track) :
    ∀ i j, i < j → j < track.length → (sp track i).endMs ≤ (sp track j).beginMs := by
  intro i j hij hlt
  obtain ⟨k, rfl⟩ : ∃ k, j = k + 1 := ⟨j - 1, by omega⟩
  have h1 : (sp track i).endMs ≤ (sp track k).endMs :=
    spans_end_mono track hwf hsep i k (by omega) (by omega)
  have h2 : (sp track k).endMs ≤ (sp track (k + 1)).beginMs := hsep k (by omega)
  linarith

theorem firstSpanCmp_lt_iff (s : Span) (needle : ℚ) :
    firstSpanCmp s needle < 0 ↔ s.endMs < needle := by
  unfold firstSpanCmp
  split_ifs <;> simp_all

theorem firstSpanCmp_gt_iff (s : Span) (needle : ℚ) :
    firstSpanCmp s needle > 0 ↔ ¬s.endMs < needle ∧ s.beginMs > needle := by
  unfold firstSpanCmp
  split_ifs <;> simp_all

theorem firstSpanCmp_eq_iff (s : Span) (needle : ℚ) :
    firstSpanCmp s needle = 0 ↔ ¬s.endMs < needle ∧ ¬s.beginMs > needle := by
  unfold firstSpanCmp
  split_ifs <;> simp_all

theorem lastSpanCmp_lt_iff (s : Span) (needle : ℚ) :
    lastSpanCmp s needle < 0 ↔ s.beginMs < needle := by
  unfold lastSpanCmp
  split_ifs <;> simp_all

theorem lastSpanCmp_gt_iff (s : Span) (needle : ℚ) :
    lastSpanCmp s needle > 0 ↔ ¬s.beginMs < needle ∧ s.endMs > needle := by
  unfold lastSpanCmp
  split_ifs <;> simp_all

theorem lastSpanCmp_eq_iff (s : Span) (needle : ℚ) :
    lastSpanCmp s needle = 0 ↔ ¬s.beginMs < needle ∧ ¬s.endMs > needle := by
  unfold lastSpanCmp
  split_ifs <;> simp_all

theorem binarySearchGo_step_stop (track : List Span) (needle : ℚ) (cmp : Span → ℚ → Int)
    (fuel low hi1 : ℕ) (h : ¬low < hi1) :
    binarySearchGo track needle cmp (fuel + 1) low hi1 = -((low : Int) + 1) := by
  simp only [binarySearchGo]
  rw [if_neg h]

theorem binarySearchGo_step_lt (track : List Span) (needle : ℚ) (cmp : Span → ℚ → Int)
    (fuel low hi1 : ℕ) (h : low < hi1)
    (hc : cmp (sp track (low + (hi1 - 1 - low) / 2)) needle < 0) :
    binarySearchGo track needle cmp (fuel + 1) low hi1 =
      binarySearchGo track needle cmp fuel (low + (hi1 - 1 - low) / 2 + 1) hi1 := by
  simp only [binarySearchGo]
  rw [if_pos h, if_pos hc]

theorem binarySearchGo_step_gt (track : List Span) (needle : ℚ) (cmp : Span → ℚ → Int)
    (fuel low hi1 : ℕ) (h : low < hi1)
    (hc : cmp (sp track (low + (hi1 - 1 - low) / 2)) needle > 0) :
    binarySearchGo track needle cmp (fuel + 1) low hi1 =
      binarySearchGo track needle cmp fuel low (low + (hi1 - 1 - low) / 2) := by
  simp only [binarySearchGo]
  rw [if_pos h, if_neg (not_lt.mpr hc.le), if_pos hc]

theorem binarySearchGo_step_eq (track : List Span) (needle : ℚ) (cmp : Span → ℚ → Int)
    (fuel low hi1 : ℕ) (h : low < hi1)
    (hc : cmp (sp track (low + (hi1 - 1 - low) / 2)) needle = 0) :
    binarySearchGo track needle cmp (fuel + 1) low hi1 =
      ((low + (hi1 - 1 - low) / 2 : ℕ) : Int) := by
  simp only [binarySearchGo]
  rw [if_pos h, if_neg (by rw [hc]; exact lt_irrefl 0), if_neg (by rw [hc]; exact lt_irrefl 0)]

theorem binarySearchGo_spec (track : List Span) (needle : ℚ) (cmp : Span → ℚ → Int)
    (Hneg : ∀ i j, i ≤ j → j < track.length →
      cmp (sp track j) needle < 0 → cmp (sp track i) needle < 0)
    (Hpos : ∀ i j, i ≤ j → j < track.length →
      cmp (sp track i) needle > 0 → cmp (sp track j) needle > 0) :
    ∀ (fuel low hi1 : ℕ), hi1 - low ≤ fuel → low ≤ hi1 → hi1 ≤ track.length →
      (∀ i, i < low → cmp (sp track i) needle < 0) →
      (∀ i, hi1 ≤ i → i < track.length → cmp (sp track i) needle > 0) →
      (∃ m : ℕ, binarySearchGo track needle cmp fuel low hi1 = (m : Int) ∧
        m < track.length ∧ cmp (sp track m) needle = 0) ∨
      (∃ f : ℕ, binarySearchGo track needle cmp fuel low hi1 = -((f : Int) + 1) ∧
        f ≤ track.length ∧ (∀ i, i < f → cmp (sp track i) needle < 0) ∧
        (∀ i, f ≤ i → i < track.length → cmp (sp track i) needle > 0)) := by
  intro fuel
  induction fuel with
  | zero =>
    intro low hi1 hfuel hlh hn inv1 inv2
    right
    refine ⟨low, rfl, by omega, inv1, ?_⟩
    intro i hi hin
    exact inv2 i (by omega) hin
  | succ fuel ih =>
    intro low hi1 hfuel hlh hn inv1 inv2
    by_cases h : low < hi1
    · have hmid2 : low + (hi1 - 1 - low) / 2 < hi1 := by
        have := Nat.div_le_self (hi1 - 1 - low) 2
        omega
      rcases lt_trichotomy (cmp (sp track (low + (hi1 - 1 - low) / 2)) needle) 0
        with hc | hc | hc
      · rw [binarySearchGo_step_lt track needle cmp fuel low hi1 h hc]
        refine ih (low + (hi1 - 1 - low) / 2 + 1) hi1 (by omega) (by omega) hn ?_ inv2
        intro i hi
        exact Hneg i (low + (hi1 - 1 - low) / 2) (by omega) (by omega) hc
      · rw [binarySearchGo_step_eq track needle cmp fuel low hi1 h hc]
        exact Or.inl ⟨low + (hi1 - 1 - low) / 2, rfl, by omega, hc⟩
      · rw [binarySearchGo_step_gt track needle cmp fuel low hi1 h hc]
        refine ih low (low + (hi1 - 1 - low) / 2) (by omega) (by omega) (by omega)
          inv1 ?_
        intro i hi hin
        exact Hpos (low + (hi1 - 1 - low) / 2) i hi hin hc
    · rw [binarySearchGo_step_stop track needle cmp fuel low hi1 h]
      right
      refine ⟨low, rfl, by omega, inv1, ?_⟩
      intro i hi hin
      exact inv2 i (by omega) hin

theorem normIndex_ofNat (m : ℕ) : normIndex (m : Int) = m := by
  unfold normIndex
  rw [if_neg (by omega)]
  omega

theorem normIndex_insertion (f : ℕ) : normIndex (-((f : Int) + 1)) = f := by
  unfold normIndex
  rw [if_pos (by omega)]
  omega

theorem firstSpanIndex_spec (track : List Span) (needle : ℚ) (hwf : spansWF track)
    (hsep : spansSeparated track) :
    firstSpanIndex track needle ≤ track.length ∧
      (∀ i, i < firstSpanIndex track needle → (sp track i).endMs ≤ needle) ∧
      (∀ i, firstSpanIndex track needle ≤ i → i < track.length →
        needle ≤ (sp track i).endMs) := by
  have Hneg : ∀ i j, i ≤ j → j < track.length →
      firstSpanCmp (sp track j) needle < 0 → firstSpanCmp (sp track i) needle < 0 := by
    intro i j hij hj hcj
    rw [firstSpanCmp_lt_iff] at *
    have := spans_end_mono track hwf hsep i j hij hj
    linarith
  have Hpos : ∀ i j, i ≤ j → j < track.length →
      firstSpanCmp (sp track i) needle > 0 → firstSpanCmp (sp track j) needle > 0 := by
    intro i j hij hj hci
    rw [firstSpanCmp_gt_iff] at *
    obtain ⟨h1, h2⟩ := hci
    have hb := spans_begin_mono track hwf hsep i j hij hj
    have hwfj := hwf j hj
    constructor
    · intro hlt; linarith
    · linarith
  have spec := binarySearchGo_spec track needle firstSpanCmp Hneg Hpos
    track.length 0 track.length (by omega) (by omega) (le_refl _)
    (fun i hi => absurd hi (Nat.not_lt_zero i))
    (fun i hi hin => absurd hin (by omega))
  rcases spec with ⟨m, hgo, hm, hc⟩ | ⟨f, hgo, hf, hc1, hc2⟩
  · have heq : firstSpanIndex track needle = m := by
      unfold firstSpanIndex binarySearch
      rw [hgo, normIndex_ofNat]
    rw [heq]
    rw [firstSpanCmp_eq_iff] at hc
    obtain ⟨hce, hcb⟩ := hc
    push_neg at hce hcb
    refine ⟨by omega, ?_, ?_⟩
    · intro i hi
      have h1 := spans_cross_le track hwf hsep i m hi hm
      linarith
    · intro i hi hin
      have h1 := spans_end_mono track hwf hsep m i hi hin
      linarith
  · have heq : firstSpanIndex track needle = f := by
      unfold firstSpanIndex binarySearch
      rw [hgo, normIndex_insertion]
    rw [heq]
    refine ⟨hf, ?_, ?_⟩
    · intro i hi
      have := hc1 i hi
      rw [firstSpanCmp_lt_iff] at this
      linarith
    · intro i hi hin
      have := hc2 i hi hin
      rw [firstSpanCmp_gt_iff] at this
      exact le_of_not_lt this.1

theorem lastSpanIndex_spec (track : List Span) (needle : ℚ) (hwf : spansWF track)
    (hsep : spansSeparated track) :
    lastSpanIndex track needle ≤ track.length ∧
      (∀ i, i < lastSpanIndex track needle → (sp track i).beginMs ≤ needle) ∧
      (∀ i, lastSpanIndex track needle ≤ i → i < track.length →
        needle ≤ (sp track i).beginMs) := by
  have Hneg : ∀ i j, i ≤ j → j < track.length →
      lastSpanCmp (sp track j) needle < 0 → lastSpanCmp (sp track i) needle < 0 := by
    intro i j hij hj hcj
    rw [lastSpanCmp_lt_iff] at *
    have := spans_begin_mono track hwf hsep i j hij hj
    linarith
  have Hpos : ∀ i j, i ≤ j → j < track.length →
      lastSpanCmp (sp track i) needle > 0 → lastSpanCmp (sp track j) needle > 0 := by
    intro i j hij hj hci
    rw [lastSpanCmp_gt_iff] at *
    obtain ⟨h1, h2⟩ := hci
    have hb := spans_begin_mono track hwf hsep i j hij hj
    have he := spans_end_mono track hwf hsep i j hij hj
    constructor
    · intro hlt; linarith
    · linarith
  have spec := binarySearchGo_spec track needle lastSpanCmp Hneg Hpos
    track.length 0 track.length (by omega) (by omega) (le_refl _)
    (fun i hi => absurd hi (Nat.not_lt_zero i))
    (fun i hi hin => absurd hin (by omega))
  rcases spec with ⟨m, hgo, hm, hc⟩ | ⟨f, hgo, hf, hc1, hc2⟩
  · have heq : lastSpanIndex track needle = m := by
      unfold lastSpanIndex binarySearch
      rw [hgo, normIndex_ofNat]
    rw [heq]
    rw [lastSpanCmp_eq_iff] at hc
    obtain ⟨hcb, hce⟩ := hc
    push_neg at hcb hce
    have hwfm := hwf m hm
    refine ⟨by omega, ?_, ?_⟩
    · intro i hi
      have h1 := spans_begin_mono track hwf hsep i m (le_of_lt hi) hm
      linarith
    · intro i hi hin
      have h1 := spans_begin_mono track hwf hsep m i hi hin
      linarith
  · have heq : lastSpanIndex track needle = f := by
      unfold lastSpanIndex binarySearch
      rw [hgo, normIndex_insertion]
    rw [heq]
    refine ⟨hf, ?_, ?_⟩
    · intro i hi
      have := hc1 i hi
      rw [lastSpanCmp_lt_iff] at this
      linarith
    · intro i hi hin
      have := hc2 i hi hin
      rw [lastSpanCmp_gt_iff] at this
      exact le_of_not_lt this.1

section ConcreteEvalTwo

attribute [local semireducible] Rat.add Rat.sub Rat.mul Rat.inv

theorem scenario_visited : visitedIndices scenarioTrack 12 32 0 = [1, 2, 3] := by decide

/-- Counterexample for C1 as stated: `boundaryTrack` is sorted ascending by
`beginMs` (indeed well-formed and non-overlapping), its span 1 = [10, 20]
intersects the viewport [2, 10] (at the single point 10), yet the loop
visits only index 0 — the `lastSpan` search excludes a span that begins
exactly at the viewport's right edge, so the visited set is not exactly
the set of intersecting spans. -/
theorem boundary_span_skipped :
    spansWF boundaryTrack ∧ spansSeparated boundaryTrack ∧
      spansSortedByBegin boundaryTrack ∧
      ((sp boundaryTrack 1).beginMs + 0 ≤ 10 ∧ 2 ≤ (sp boundaryTrack 1).endMs + 0) ∧
      visitedIndices boundaryTrack 2 10 0 = [0] := by
  refine ⟨?_, ?_, ?_, ?_, ?_⟩
  · intro i hi
    simp only [boundaryTrack, List.length_cons, List.length_nil] at hi
    interval_cases i <;> norm_num [sp, boundaryTrack]
  · intro i hi
    simp only [boundaryTrack, List.length_cons, List.length_nil] at hi
    interval_cases i <;> norm_num [sp, boundaryTrack]
  · intro i hi
    simp only [boundaryTrack, List.length_cons, List.length_nil] at hi
    interval_cases i <;> norm_num [sp, boundaryTrack]
  · norm_num [sp, boundaryTrack]
  · decide

end ConcreteEvalTwo

/-- C1 (amended): for every track that is ascending-sorted by `beginMs` with
the track invariants `beginMs ≤ endMs` per span and adjacent non-overlap
(`endMs i ≤ beginMs (i+1)`, which imply the sort), the `drawSpanTrack` loop
visits only spans whose shifted `[beginMs, endMs]` intersects the closed
view range, and visits every span that overlaps the open view range
(`endMs + offset > viewMin` and `beginMs + offset < viewMax`); a span
touching the viewport only at its boundary may be skipped by the binary
searches.  In the spec's five-span scenario with viewport [12, 32] the
loop visits exactly indices 1, 2, 3. -/
theorem drawSpanTrack_visits (track : List Span) (hwf : spansWF track)
    (hsep : spansSeparated track) (beginViewRange endViewRange processOffsetMs : ℚ) :
    (∀ i, i < track.length →
      ((i ∈ visitedIndices track beginViewRange endViewRange processOffsetMs →
          beginViewRange ≤ (sp track i).endMs + processOffsetMs ∧
            (sp track i).beginMs + processOffsetMs ≤ endViewRange) ∧
        (beginViewRange < (sp track i).endMs + processOffsetMs →
          (sp track i).beginMs + processOffsetMs < endViewRange →
          i ∈ visitedIndices track beginViewRange endViewRange processOffsetMs))) ∧
      visitedIndices scenarioTrack 12 32 0 = [1, 2, 3] := by
  obtain ⟨hfle, hfbelow, hfabove⟩ :=
    firstSpanIndex_spec track (beginViewRange - processOffsetMs) hwf hsep
  obtain ⟨hlle, hlbelow, hlabove⟩ :=
    lastSpanIndex_spec track (endViewRange - processOffsetMs) hwf hsep
  refine ⟨?_, scenario_visited⟩
  intro i hi
  constructor
  · intro hmem
    rw [visitedIndices, mem_range'_iff] at hmem
    obtain ⟨h1, h2⟩ := hmem
    have hfi : firstSpanIndex track (beginViewRange - processOffsetMs) ≤ i := h1
    have hli : i < lastSpanIndex track (endViewRange - processOffsetMs) := by omega
    have ha := hfabove i hfi hi
    have hb := hlbelow i hli
    constructor <;> linarith
  · intro hend hbegin
    have hfi : firstSpanIndex track (beginViewRange - processOffsetMs) ≤ i := by
      by_contra hcon
      have := hfbelow i (by omega)
      linarith
    have hli : i < lastSpanIndex track (endViewRange - processOffsetMs) := by
      by_contra hcon
      have := hlabove i (by omega) hi
      linarith
    rw [visitedIndices, mem_range'_iff]
    omega

/-- Witness for the amended C1, at the spec scenario: span 2 = [20, 25]
overlaps the open viewport (12, 32), so it is visited; the full visited
list is [1, 2, 3]. -/
theorem drawSpanTrack_visits_witness :
    2 ∈ visitedIndices scenarioTrack 12 32 0 ∧
      visitedIndices scenarioTrack 12 32 0 = [1, 2, 3] :=
  ⟨(((drawSpanTrack_visits scenarioTrack
      (by
        intro i hi
        simp only [scenarioTrack, List.length_cons, List.length_nil] at hi
        interval_cases i <;> norm_num [sp, scenarioTrack])
      (by
        intro i hi
        simp only [scenarioTrack, List.length_cons, List.length_nil] at hi
        interval_cases i <;> norm_num [sp, scenarioTrack])
      12 32 0).1 2 (by norm_num [scenarioTrack])).2
      (by norm_num [sp, scenarioTrack]) (by norm_num [sp, scenarioTrack])),
    (drawSpanTrack_visits scenarioTrack
      (by
        intro i hi
        simp only [scenarioTrack, List.length_cons, List.length_nil] at hi
        interval_cases i <;> norm_num [sp, scenarioTrack])
      (by
        intro i hi
        simp only [scenarioTrack, List.length_cons, List.length_nil] at hi
        interval_cases i <;> norm_num [sp, scenarioTrack])
      12 32 0).2⟩
